import Mathlib

/-!
Shallow embedding of the validation and positional-diff rendering pipeline of
`src/AlignmentTool.tsx` (the single source component of the repository), and
proofs of the specification's claims about it.

Strings are modelled as `List Char`.  JavaScript's `toUpperCase` is modelled
characterwise on the ASCII range by `Char.toUpper` (every character that
occurs in the alphabet or its lowercase variants is ASCII).  The component's
four pieces of React state (`seq1`, `seq2`, `error`, `showAlignment`) are
modelled by the structure `UIState`, and the three event handlers
(`handleSeqChange`, `handleSubmit`, `handleClear`) as state transformers.
-/

namespace AlignmentTool

/-- The fixed symbol → color table `aminoAcidColors` of the source, in source
order.  The source object has exactly these 20 entries; in particular, it has
no entry for the gap character `'-'`. -/
def aminoAcidColors : List (Char × String) :=
  [ ('A', "#67e446"),
    ('R', "#bb99ff"),
    ('N', "#80bfff"),
    ('D', "#fc9cac"),
    ('C', "#ffeao0"),
    ('E', "#fc9cac"),
    ('Q', "#80bfff"),
    ('G', "#c4c4c4"),
    ('H', "#80bfff"),
    ('I', "#67e446"),
    ('L', "#67e446"),
    ('K', "#bb99ff"),
    ('M', "#67e446"),
    ('F', "#67e446"),
    ('P', "#67e446"),
    ('S', "#80bfff"),
    ('T', "#80bfff"),
    ('W', "#67e446"),
    ('Y', "#67e446"),
    ('V', "#67e446") ]

/-- The 21-symbol alphabet: the character class of the validation regex
`^[ARNDCEQGHILKMFPSTWYV\-]+$` (20 amino-acid codes plus the gap `'-'`). -/
def alphabet : List Char :=
  ['A','R','N','D','C','E','Q','G','H','I','L','K','M','F','P','S','T',
   'W','Y','V','-']

/-- The source's `isValidSequence`: the regex `^[ARNDCEQGHILKMFPSTWYV\-]+$`
matches a string iff it is non-empty and every character is in the
alphabet. -/
def isValidSequence (seq : List Char) : Bool :=
  !seq.isEmpty && seq.all (fun c => alphabet.contains c)

/-- Color lookup with fallback: `aminoAcidColors[char] || "#FFF"`.  (All
table values are non-empty strings, hence truthy, so `||` fires exactly when
the key is absent.) -/
def colorOf (c : Char) : String :=
  (aminoAcidColors.lookup c).getD "#FFF"

/-- One rendered `AminoBox`: the displayed character and its background
color. -/
structure Cell where
  sym : Char
  color : String
  deriving DecidableEq

/-- One rendered chunk (`Box` with two `ChunkedRow`s): the two parallel rows
of cells for the current window of each sequence. -/
structure DiffChunk where
  row1 : List Cell
  row2 : List Cell
  deriving DecidableEq

/-- Row 1 of a chunk: `chunk1.split("").map(char => AminoBox with bgcolor
aminoAcidColors[char] || "#FFF")`. -/
def row1Cells (chunk1 : List Char) : List Cell :=
  chunk1.map (fun char => ⟨char, colorOf char⟩)

/-- Row 2 of a chunk: `chunk2.split("").map((char, idx) => ...)` where
`refChar = chunk1[idx]` and the background is
`char !== refChar ? aminoAcidColors[char] || "#FFF" : "transparent"`.
A missing `refChar` (index out of range, JS `undefined`) makes the
comparison `char !== refChar` true, so the character is drawn in its own
color. -/
def row2Cells (chunk1 chunk2 : List Char) : List Cell :=
  chunk2.enum.map (fun p =>
    match chunk1[p.1]? with
    | some refChar =>
        ⟨p.2, if p.2 ≠ refChar then colorOf p.2 else "transparent"⟩
    | none => ⟨p.2, colorOf p.2⟩)

/-- The source's `renderAlignment` loop:
`for (let i = 0; i < seq1.length; i += CHUNK_SIZE)` with
`chunk1 = seq1.slice(i, i + CHUNK_SIZE)` and
`chunk2 = seq2.slice(i, i + CHUNK_SIZE)`, pushing one chunk per iteration.
The recursion consumes `CHUNK_SIZE` characters per step, which is the same
iteration.  The source's loop would not terminate for `CHUNK_SIZE = 0`
(the component only ever uses 9 or 20); the embedding returns `[]` in that
unreachable case to be total. -/
def renderAlignment (seq1 seq2 : List Char) (chunkSize : Nat) :
    List DiffChunk :=
  if seq1.isEmpty || chunkSize = 0 then []
  else
    { row1 := row1Cells (seq1.take chunkSize),
      row2 := row2Cells (seq1.take chunkSize) (seq2.take chunkSize) } ::
      renderAlignment (seq1.drop chunkSize) (seq2.drop chunkSize) chunkSize
termination_by seq1.length
decreasing_by
  rename_i h
  simp only [Bool.or_eq_true, decide_eq_true_eq, List.isEmpty_iff,
    not_or] at h
  have h1 : seq1 ≠ [] := h.1
  have h2 : chunkSize ≠ 0 := h.2
  have := List.length_pos.mpr h1
  simp only [List.length_drop]
  omega

/-- The validator's outcome: one of the three error kinds of `handleSubmit`,
or success. -/
inductive ValidationResult where
  | missingInput
  | badAlphabet
  | lengthMismatch
  | valid
  deriving DecidableEq

/-- The validation cascade of `handleSubmit`, in source order:
`!seq1 || !seq2` (empty strings are falsy), then
`!isValidSequence(seq1) || !isValidSequence(seq2)`, then
`seq1.length !== seq2.length`, else success. -/
def validate (seq1 seq2 : List Char) : ValidationResult :=
  if seq1.isEmpty || seq2.isEmpty then .missingInput
  else if !isValidSequence seq1 || !isValidSequence seq2 then .badAlphabet
  else if seq1.length != seq2.length then .lengthMismatch
  else .valid

/-- Validation as worded by the spec (§4.1/§7): empty input, then a
character outside the 21-symbol alphabet, then a length mismatch,
first-match-wins. -/
def validateSpec (seq1 seq2 : List Char) : ValidationResult :=
  if seq1 = [] ∨ seq2 = [] then .missingInput
  else if (∃ c ∈ seq1, c ∉ alphabet) ∨ (∃ c ∈ seq2, c ∉ alphabet) then
    .badAlphabet
  else if seq1.length ≠ seq2.length then .lengthMismatch
  else .valid

/-- Lowercase variants of the 20 amino-acid letters: the extra characters
matched by the sanitizer's character class because of its `i` regex flag. -/
def lowercaseAlphabet : List Char :=
  ['a','r','n','d','c','e','q','g','h','i','l','k','m','f','p','s','t',
   'w','y','v']

/-- The character test of the sanitizer's regex
`/[^ARNDCEQGHILKMFPSTWYV\-]/gi`: a character survives `replace(..., "")`
iff it is in the class, case-insensitively — an alphabet symbol or a
lowercase amino-acid letter. -/
def keptByFilter (c : Char) : Bool :=
  alphabet.contains c || lowercaseAlphabet.contains c

/-- The live sanitizer of `handleSeqChange`:
`e.target.value.toUpperCase().replace(/[^ARNDCEQGHILKMFPSTWYV\-]/gi, "")`. -/
def sanitize (value : List Char) : List Char :=
  (value.map Char.toUpper).filter keptByFilter

/-- The sanitizer as worded by the spec (§4.3): upper-case every character,
then delete every character not in the 21-symbol alphabet. -/
def sanitizeSpec (value : List Char) : List Char :=
  (value.map Char.toUpper).filter (fun c => alphabet.contains c)

/-- The component's React state: both input values, the error message
(`""` when no error is shown) and the diff-visibility flag. -/
structure UIState where
  seq1 : List Char
  seq2 : List Char
  error : String
  showAlignment : Bool
  deriving DecidableEq

/-- The initial state: `useState("")`, `useState("")`, `useState("")`,
`useState(false)`. -/
def initState : UIState :=
  { seq1 := [], seq2 := [], error := "", showAlignment := false }

/-- Error message of the missing-input branch. -/
def msgMissing : String :=
  "Обе последовательности обязательны для заполнения."

/-- Error message of the bad-alphabet branch. -/
def msgAlphabet : String :=
  "Последовательности могут содержать только допустимые символы."

/-- Error message of the length-mismatch branch. -/
def msgLength : String :=
  "Последовательности должны быть одинаковой длины."

/-- The source's `handleSubmit`: first `setShowAlignment(false)`, then the
three guarded early returns each setting an error message, else
`setError("")` and `setShowAlignment(true)`. -/
def handleSubmit (st : UIState) : UIState :=
  if st.seq1.isEmpty || st.seq2.isEmpty then
    { st with showAlignment := false, error := msgMissing }
  else if !isValidSequence st.seq1 || !isValidSequence st.seq2 then
    { st with showAlignment := false, error := msgAlphabet }
  else if st.seq1.length != st.seq2.length then
    { st with showAlignment := false, error := msgLength }
  else
    { st with showAlignment := true, error := "" }

/-- The source's `handleSeqChange` applied to the first field: store the
sanitized text, hide the diff, clear the error. -/
def handleSeqChange1 (st : UIState) (text : List Char) : UIState :=
  { st with seq1 := sanitize text, showAlignment := false, error := "" }

/-- The source's `handleSeqChange` applied to the second field. -/
def handleSeqChange2 (st : UIState) (text : List Char) : UIState :=
  { st with seq2 := sanitize text, showAlignment := false, error := "" }

/-- The source's `handleClear`: reset both inputs, the error and the
diff-visibility flag. -/
def handleClear (_st : UIState) : UIState := initState

/-- The three user events the component handles. -/
inductive Event where
  | change1 (text : List Char)
  | change2 (text : List Char)
  | submit
  | clear

/-- One UI-update turn: dispatch an event to its handler. -/
def step (st : UIState) : Event → UIState
  | .change1 text => handleSeqChange1 st text
  | .change2 text => handleSeqChange2 st text
  | .submit => handleSubmit st
  | .clear => handleClear st

/-- Run a sequence of events from the initial state. -/
def run (events : List Event) : UIState :=
  events.foldl step initState

/-- The lengths of the windows the renderer cuts `[0, n)` into:
`min C n` elements per iteration until the range is exhausted. -/
def chunkLens (n C : Nat) : List Nat :=
  if n = 0 ∨ C = 0 then [] else min C n :: chunkLens (n - C) C
termination_by n
decreasing_by
  rename_i h
  simp only [not_or] at h
  omega

/-- Concatenation, in order, of the first rows of all rendered chunks. -/
def row1Flat (seq1 seq2 : List Char) (chunkSize : Nat) : List Cell :=
  ((renderAlignment seq1 seq2 chunkSize).map DiffChunk.row1).flatten

/-- Concatenation, in order, of the second rows of all rendered chunks. -/
def row2Flat (seq1 seq2 : List Char) (chunkSize : Nat) : List Cell :=
  ((renderAlignment seq1 seq2 chunkSize).map DiffChunk.row2).flatten

/-- The list of first-row lengths of the rendered chunks. -/
def chunkSizes1 (seq1 seq2 : List Char) (chunkSize : Nat) : List Nat :=
  (renderAlignment seq1 seq2 chunkSize).map (fun ch => ch.row1.length)

/-- The list of second-row lengths of the rendered chunks. -/
def chunkSizes2 (seq1 seq2 : List Char) (chunkSize : Nat) : List Nat :=
  (renderAlignment seq1 seq2 chunkSize).map (fun ch => ch.row2.length)

/-! ## Helper lemmas -/

theorem renderAlignment_nil (seq2 : List Char) (C : Nat) :
    renderAlignment [] seq2 C = [] := by
  rw [renderAlignment]
  simp

theorem renderAlignment_cons (seq1 seq2 : List Char) (C : Nat)
    (h1 : seq1 ≠ []) (hC : C ≠ 0) :
    renderAlignment seq1 seq2 C =
      { row1 := row1Cells (seq1.take C),
        row2 := row2Cells (seq1.take C) (seq2.take C) } ::
        renderAlignment (seq1.drop C) (seq2.drop C) C := by
  rw [renderAlignment]
  simp [h1, hC, List.isEmpty_iff]

theorem zip_take_take {α β : Type} (l1 : List α) (l2 : List β) (n : Nat) :
    (l1.take n).zip (l2.take n) = (l1.zip l2).take n := by
  induction l1 generalizing l2 n with
  | nil => simp
  | cons a l1 ih =>
    cases l2 with
    | nil => simp
    | cons b l2 =>
      cases n with
      | zero => simp
      | succ n => simp [ih]

theorem zip_drop_drop {α β : Type} (l1 : List α) (l2 : List β) (n : Nat) :
    (l1.drop n).zip (l2.drop n) = (l1.zip l2).drop n := by
  induction l1 generalizing l2 n with
  | nil => simp
  | cons a l1 ih =>
    cases l2 with
    | nil => simp
    | cons b l2 =>
      cases n with
      | zero => simp
      | succ n => simp [ih]

theorem row2Cells_length (c1 c2 : List Char) :
    (row2Cells c1 c2).length = c2.length := by
  simp [row2Cells]

theorem row2Cells_enumFrom (c2 : List Char) :
    ∀ (n : Nat) (c1 : List Char), n + c2.length ≤ c1.length →
    (c2.enumFrom n).map (fun p =>
      match c1[p.1]? with
      | some refChar =>
          Cell.mk p.2 (if p.2 ≠ refChar then colorOf p.2 else "transparent")
      | none => Cell.mk p.2 (colorOf p.2))
    = ((c1.drop n).zip c2).map
        (fun p => ⟨p.2, if p.2 ≠ p.1 then colorOf p.2 else "transparent"⟩) := by
  induction c2 with
  | nil =>
    intro n c1 _
    simp
  | cons x xs ih =>
    intro n c1 h
    have hn : n < c1.length := by
      simp only [List.length_cons] at h
      omega
    have hdrop : c1.drop n = c1[n] :: c1.drop (n + 1) :=
      List.drop_eq_getElem_cons hn
    have hget : c1[n]? = some c1[n] := List.getElem?_eq_getElem hn
    simp only [List.enumFrom, List.map_cons]
    rw [hdrop]
    simp only [List.zip_cons_cons, List.map_cons]
    congr 1
    · simp [hget]
    · have h' : (n + 1) + xs.length ≤ c1.length := by
        simp only [List.length_cons] at h
        omega
      exact ih (n + 1) c1 h'

theorem row2Cells_eq_zip (c1 c2 : List Char) (h : c2.length ≤ c1.length) :
    row2Cells c1 c2 = (c1.zip c2).map
      (fun p => ⟨p.2, if p.2 ≠ p.1 then colorOf p.2 else "transparent"⟩) := by
  have := row2Cells_enumFrom c2 0 c1 (by omega)
  simpa [row2Cells, List.enum] using this

theorem renderAlignment_zero (seq1 seq2 : List Char) :
    renderAlignment seq1 seq2 0 = [] := by
  rw [renderAlignment]
  simp

theorem render_row1_flatten (seq1 seq2 : List Char) (C : Nat) (hC : 0 < C) :
    row1Flat seq1 seq2 C = row1Cells seq1 := by
  revert hC
  induction seq1, seq2, C using renderAlignment.induct with
  | case1 s1 s2 C h =>
    intro hC
    simp only [Bool.or_eq_true, decide_eq_true_eq, List.isEmpty_iff] at h
    rcases h with h | h
    · subst h
      simp [row1Flat, renderAlignment_nil, row1Cells]
    · omega
  | case2 s1 s2 C h ih =>
    intro hC
    simp only [Bool.or_eq_true, decide_eq_true_eq, List.isEmpty_iff,
      not_or] at h
    unfold row1Flat
    rw [renderAlignment_cons s1 s2 C h.1 h.2]
    simp only [List.map_cons, List.flatten_cons]
    have htail := ih hC
    unfold row1Flat at htail
    rw [htail]
    simp [row1Cells, ← List.map_append, List.take_append_drop]

theorem render_row2_flatten (seq1 seq2 : List Char) (C : Nat) (hC : 0 < C)
    (hlen : seq1.length = seq2.length) :
    row2Flat seq1 seq2 C = (seq1.zip seq2).map
      (fun p => ⟨p.2, if p.2 ≠ p.1 then colorOf p.2 else "transparent"⟩) := by
  revert hC hlen
  induction seq1, seq2, C using renderAlignment.induct with
  | case1 s1 s2 C h =>
    intro hC hlen
    simp only [Bool.or_eq_true, decide_eq_true_eq, List.isEmpty_iff] at h
    rcases h with h | h
    · subst h
      have h2 : s2 = [] := by
        cases s2 <;> simp_all
      subst h2
      simp [row2Flat, renderAlignment_nil]
    · omega
  | case2 s1 s2 C h ih =>
    intro hC hlen
    simp only [Bool.or_eq_true, decide_eq_true_eq, List.isEmpty_iff,
      not_or] at h
    unfold row2Flat
    rw [renderAlignment_cons s1 s2 C h.1 h.2]
    simp only [List.map_cons, List.flatten_cons]
    have hlen' : (s1.drop C).length = (s2.drop C).length := by
      simp [List.length_drop, hlen]
    have htail := ih hC hlen'
    unfold row2Flat at htail
    rw [htail]
    rw [row2Cells_eq_zip _ _ (by simp [List.length_take]; omega)]
    rw [zip_take_take, zip_drop_drop]
    simp [← List.map_append, List.take_append_drop]

theorem render_sizes1 (seq1 seq2 : List Char) (C : Nat) :
    chunkSizes1 seq1 seq2 C = chunkLens seq1.length C := by
  induction seq1, seq2, C using renderAlignment.induct with
  | case1 s1 s2 C h =>
    simp only [Bool.or_eq_true, decide_eq_true_eq, List.isEmpty_iff] at h
    rcases h with h | h
    · subst h
      simp [chunkSizes1, renderAlignment_nil, chunkLens]
    · subst h
      rw [chunkLens]
      simp [chunkSizes1, renderAlignment_zero]
  | case2 s1 s2 C h ih =>
    simp only [Bool.or_eq_true, decide_eq_true_eq, List.isEmpty_iff,
      not_or] at h
    unfold chunkSizes1
    rw [renderAlignment_cons s1 s2 C h.1 h.2]
    simp only [List.map_cons]
    unfold chunkSizes1 at ih
    rw [ih]
    have hr : chunkLens s1.length C =
        min C s1.length :: chunkLens (s1.length - C) C := by
      rw [chunkLens.eq_def]
      rw [if_neg (by
        simp only [not_or]
        exact ⟨fun h0 => h.1 (List.length_eq_zero.mp h0), h.2⟩)]
    rw [hr]
    simp [row1Cells, List.length_take, List.length_drop]

theorem render_sizes2 (seq1 seq2 : List Char) (C : Nat)
    (hlen : seq1.length = seq2.length) :
    chunkSizes2 seq1 seq2 C = chunkSizes1 seq1 seq2 C := by
  revert hlen
  induction seq1, seq2, C using renderAlignment.induct with
  | case1 s1 s2 C h =>
    intro hlen
    unfold chunkSizes1 chunkSizes2
    rw [renderAlignment.eq_def, if_pos h]
    simp
  | case2 s1 s2 C h ih =>
    intro hlen
    simp only [Bool.or_eq_true, decide_eq_true_eq, List.isEmpty_iff,
      not_or] at h
    unfold chunkSizes1 chunkSizes2
    rw [renderAlignment_cons s1 s2 C h.1 h.2]
    simp only [List.map_cons]
    have hlen' : (s1.drop C).length = (s2.drop C).length := by
      simp [List.length_drop, hlen]
    have htail := ih hlen'
    unfold chunkSizes1 chunkSizes2 at htail
    rw [htail]
    simp [row2Cells_length, row1Cells, List.length_take, hlen]

theorem renderAlignment_length (seq1 seq2 : List Char) (C : Nat) :
    (renderAlignment seq1 seq2 C).length = (chunkLens seq1.length C).length := by
  have h := render_sizes1 seq1 seq2 C
  have h2 : (chunkSizes1 seq1 seq2 C).length =
      (renderAlignment seq1 seq2 C).length := by
    simp [chunkSizes1]
  rw [← h2, h]

theorem chunkLens_sum (n C : Nat) (hC : 0 < C) : (chunkLens n C).sum = n := by
  revert hC
  induction n, C using chunkLens.induct with
  | case1 n C h =>
    intro hC
    rw [chunkLens.eq_def, if_pos h]
    rcases h with h | h
    · simp [h]
    · omega
  | case2 n C h ih =>
    intro hC
    rw [chunkLens.eq_def, if_neg h]
    simp only [List.sum_cons, ih hC]
    simp only [not_or] at h
    omega

theorem chunkLens_ne_nil (n C : Nat) (hC : 0 < C) (hn : n ≠ 0) :
    chunkLens n C ≠ [] := by
  rw [chunkLens.eq_def, if_neg (by simp only [not_or]; exact ⟨hn, by omega⟩)]
  simp

theorem chunkLens_dropLast (n C : Nat) (hC : 0 < C) :
    ∀ l ∈ (chunkLens n C).dropLast, l = C := by
  revert hC
  induction n, C using chunkLens.induct with
  | case1 n C h =>
    intro hC
    rw [chunkLens.eq_def, if_pos h]
    simp
  | case2 n C h ih =>
    intro hC
    rw [chunkLens.eq_def, if_neg h]
    simp only [not_or] at h
    by_cases hrest : n - C = 0
    · rw [chunkLens.eq_def, if_pos (Or.inl hrest)]
      simp
    · have hne : chunkLens (n - C) C ≠ [] := chunkLens_ne_nil _ _ hC hrest
      rw [List.dropLast_cons_of_ne_nil hne]
      intro l hl
      rcases List.mem_cons.mp hl with rfl | hl
      · omega
      · exact ih hC l hl

theorem chunkLens_all_dvd (n C : Nat) (hC : 0 < C) (hd : C ∣ n) :
    ∀ l ∈ chunkLens n C, l = C := by
  revert hC hd
  induction n, C using chunkLens.induct with
  | case1 n C h =>
    intro hC hd
    rw [chunkLens.eq_def, if_pos h]
    simp
  | case2 n C h ih =>
    intro hC hd
    rw [chunkLens.eq_def, if_neg h]
    simp only [not_or] at h
    have hCn : C ≤ n := Nat.le_of_dvd (by omega) hd
    intro l hl
    rcases List.mem_cons.mp hl with rfl | hl
    · omega
    · exact ih hC (Nat.dvd_sub' hd dvd_rfl) l hl

theorem chunkLens_getLast (n C : Nat) (hC : 0 < C) (hnd : ¬ C ∣ n) :
    (chunkLens n C).getLast? = some (n % C) := by
  revert hC hnd
  induction n, C using chunkLens.induct with
  | case1 n C h =>
    intro hC hnd
    rcases h with h | h
    · exact absurd (h ▸ dvd_zero C) hnd
    · omega
  | case2 n C h ih =>
    intro hC hnd
    rw [chunkLens.eq_def, if_neg h]
    simp only [not_or] at h
    by_cases hlt : n < C
    · rw [chunkLens.eq_def, if_pos (Or.inl (by omega))]
      have hmin : min C n = n := by omega
      rw [hmin, Nat.mod_eq_of_lt hlt]
      rfl
    · have hCn : C ≤ n := by omega
      have hrest : n - C ≠ 0 := by
        intro h0
        exact hnd (by
          have : n = C := by omega
          exact this ▸ dvd_rfl)
      have hne : chunkLens (n - C) C ≠ [] := chunkLens_ne_nil _ _ hC hrest
      have hnd' : ¬ C ∣ (n - C) := by
        intro hdvd
        apply hnd
        have : n - C + C = n := by omega
        exact this ▸ Nat.dvd_add hdvd dvd_rfl
      obtain ⟨b, t, hbt⟩ : ∃ b t, chunkLens (n - C) C = b :: t := by
        cases hx : chunkLens (n - C) C with
        | nil => exact absurd hx hne
        | cons b t => exact ⟨b, t, rfl⟩
      rw [hbt, List.getLast?_cons_cons, ← hbt, ih hC hnd']
      have hmod : (n - C) % C = n % C := by
        conv_rhs => rw [show n = (n - C) + C by omega]
        rw [Nat.add_mod_right]
      rw [hmod]

theorem chunkLens_one (C : Nat) (hC : 0 < C) : chunkLens 1 C = [1] := by
  rw [chunkLens.eq_def, if_neg (by omega)]
  rw [chunkLens.eq_def, if_pos (Or.inl (by omega))]
  have : min C 1 = 1 := by omega
  rw [this]

theorem charOfNat_toNat (n : Nat) (h : n < 55296) :
    (Char.ofNat n).toNat = n := by
  unfold Char.ofNat
  split
  · rfl
  · next hc => exact absurd (Or.inl h) hc

theorem toUpper_toNat_not_lower (c : Char) :
    ¬ (97 ≤ (Char.toUpper c).toNat ∧ (Char.toUpper c).toNat ≤ 122) := by
  simp only [Char.toUpper]
  split
  · next h =>
    rw [charOfNat_toNat _ (by omega)]
    omega
  · next h => omega

theorem toUpper_not_mem_lowercase (c : Char) :
    Char.toUpper c ∉ lowercaseAlphabet := by
  intro hmem
  have hall : ∀ x ∈ lowercaseAlphabet, 97 ≤ x.toNat ∧ x.toNat ≤ 122 := by
    decide
  exact toUpper_toNat_not_lower c (hall _ hmem)

theorem keptByFilter_toUpper (c : Char) :
    keptByFilter (Char.toUpper c) = alphabet.contains (Char.toUpper c) := by
  have h := toUpper_not_mem_lowercase c
  simp [keptByFilter, h]

theorem sanitize_eq_spec_aux (value : List Char) :
    sanitize value = sanitizeSpec value := by
  unfold sanitize sanitizeSpec
  apply List.filter_congr
  intro x hx
  rcases List.mem_map.mp hx with ⟨c, _, rfl⟩
  exact keptByFilter_toUpper c

theorem sanitize_mem_alphabet (value : List Char) :
    ∀ c ∈ sanitize value, c ∈ alphabet := by
  intro c hc
  unfold sanitize at hc
  have h1 := List.mem_filter.mp hc
  rcases List.mem_map.mp h1.1 with ⟨c0, _, rfl⟩
  have h2 := h1.2
  rw [keptByFilter_toUpper c0] at h2
  simpa using h2

theorem isValidSequence_iff (s : List Char) :
    isValidSequence s = true ↔ s ≠ [] ∧ ∀ c ∈ s, c ∈ alphabet := by
  simp [isValidSequence, List.isEmpty_iff, List.all_eq_true]

theorem validate_eq_spec_aux (seq1 seq2 : List Char) :
    validate seq1 seq2 = validateSpec seq1 seq2 := by
  unfold validate validateSpec
  by_cases h1 : seq1 = [] ∨ seq2 = []
  · rw [if_pos (by
      rcases h1 with h | h <;> simp [h]), if_pos h1]
  · rw [if_neg (by
      simp only [not_or] at h1
      simp [List.isEmpty_iff, h1.1, h1.2]), if_neg h1]
    simp only [not_or] at h1
    by_cases h2 : (∃ c ∈ seq1, c ∉ alphabet) ∨ (∃ c ∈ seq2, c ∉ alphabet)
    · rw [if_pos ?hb, if_pos h2]
      case hb =>
        rcases h2 with ⟨c, hc, hna⟩ | ⟨c, hc, hna⟩
        · have hv : isValidSequence seq1 = false := by
            rw [Bool.eq_false_iff, Ne, isValidSequence_iff]
            intro hcontra
            exact hna (hcontra.2 c hc)
          simp [hv]
        · have hv : isValidSequence seq2 = false := by
            rw [Bool.eq_false_iff, Ne, isValidSequence_iff]
            intro hcontra
            exact hna (hcontra.2 c hc)
          simp [hv]
    · rw [if_neg ?hb, if_neg h2]
      case hb =>
        simp only [not_or] at h2
        push_neg at h2
        have hv1 : isValidSequence seq1 = true :=
          (isValidSequence_iff seq1).mpr ⟨h1.1, h2.1⟩
        have hv2 : isValidSequence seq2 = true :=
          (isValidSequence_iff seq2).mpr ⟨h1.2, h2.2⟩
        simp [hv1, hv2]
      by_cases h3 : seq1.length = seq2.length
      · rw [if_neg (by simp [h3]), if_neg (by simp [h3])]
      · rw [if_pos (by simp [h3]), if_pos h3]

theorem step_inv (st : UIState) (e : Event) :
    (step st e).error = "" ∨ (step st e).showAlignment = false := by
  cases e with
  | change1 text => left; rfl
  | change2 text => left; rfl
  | clear => left; rfl
  | submit =>
    show (handleSubmit st).error = "" ∨ (handleSubmit st).showAlignment = false
    unfold handleSubmit
    split
    · right; rfl
    · split
      · right; rfl
      · split
        · right; rfl
        · left; rfl

theorem foldl_inv (events : List Event) (st : UIState)
    (h : st.error = "" ∨ st.showAlignment = false) :
    (events.foldl step st).error = "" ∨
      (events.foldl step st).showAlignment = false := by
  induction events generalizing st with
  | nil => exact h
  | cons e es ih =>
    rw [List.foldl_cons]
    exact ih _ (step_inv st e)

/-! ## Claim theorems -/

/-- C1: for every pair of equal-length sequences and positive chunk size,
the rendered colors are position-wise: each sequence-1 cell carries the
lookup-table color of its own symbol (white fallback when absent),
independent of position and of sequence 2, and each sequence-2 cell is
"transparent" exactly when its symbol equals sequence 1's symbol at the
same position, otherwise it carries the table color of its own symbol. -/
theorem rendered_colors_positionwise (seq1 seq2 : List Char)
    (chunkSize : Nat) (hC : 0 < chunkSize)
    (hlen : seq1.length = seq2.length) :
    row1Flat seq1 seq2 chunkSize = seq1.map (fun c => ⟨c, colorOf c⟩)
    ∧ row2Flat seq1 seq2 chunkSize = (seq1.zip seq2).map
        (fun p => ⟨p.2, if p.2 = p.1 then "transparent" else colorOf p.2⟩) := by
  refine ⟨render_row1_flatten seq1 seq2 chunkSize hC, ?_⟩
  rw [render_row2_flatten seq1 seq2 chunkSize hC hlen]
  apply List.map_eq_map_iff.mpr
  intro p _
  by_cases h : p.2 = p.1 <;> simp [h]

/-- Witness for C1 at seq1 = "ARN", seq2 = "ARD", chunk size 2. -/
theorem rendered_colors_positionwise_witness :
    0 < 2
    ∧ (['A','R','N'] : List Char).length = (['A','R','D'] : List Char).length
    ∧ (row1Flat ['A','R','N'] ['A','R','D'] 2
          = ['A','R','N'].map (fun c => ⟨c, colorOf c⟩)
      ∧ row2Flat ['A','R','N'] ['A','R','D'] 2
          = ((['A','R','N'] : List Char).zip ['A','R','D']).map
              (fun p =>
                ⟨p.2, if p.2 = p.1 then "transparent" else colorOf p.2⟩)) :=
  ⟨by decide, by decide,
    rendered_colors_positionwise ['A','R','N'] ['A','R','D'] 2
      (by decide) (by decide)⟩

/-- C2: validation applies exactly the three checks in the fixed order with
first-match-wins — empty input, then a character outside the 21-symbol
alphabet, then a length mismatch — and otherwise succeeds; and a submit
event shows the diff exactly when validation succeeds. -/
theorem validator_order_and_outcomes (seq1 seq2 : List Char) :
    validate seq1 seq2 = validateSpec seq1 seq2
    ∧ ∀ st : UIState, ((step st .submit).showAlignment = true ↔
        validate st.seq1 st.seq2 = .valid) := by
  refine ⟨validate_eq_spec_aux seq1 seq2, ?_⟩
  intro st
  show ((handleSubmit st).showAlignment = true ↔
    validate st.seq1 st.seq2 = .valid)
  unfold handleSubmit validate
  split_ifs <;> simp

/-- C3: for non-empty equal-length inputs and positive chunk size the
renderer yields a non-empty chunk sequence; the chunk lengths sum to the
input length on both rows; every chunk except possibly the last has the
chunk size; when the chunk size divides the input length all chunks have
the chunk size; otherwise the last chunk has length `length % chunkSize`;
and a length-1 input yields exactly one chunk of length 1. -/
theorem render_chunk_lengths (seq1 seq2 : List Char) (chunkSize : Nat)
    (hC : 0 < chunkSize) (hne : seq1 ≠ [])
    (hlen : seq1.length = seq2.length) :
    renderAlignment seq1 seq2 chunkSize ≠ []
    ∧ (chunkSizes1 seq1 seq2 chunkSize).sum = seq1.length
    ∧ (chunkSizes2 seq1 seq2 chunkSize).sum = seq2.length
    ∧ (∀ l ∈ (chunkSizes1 seq1 seq2 chunkSize).dropLast, l = chunkSize)
    ∧ (chunkSize ∣ seq1.length →
        ∀ l ∈ chunkSizes1 seq1 seq2 chunkSize, l = chunkSize)
    ∧ (¬ chunkSize ∣ seq1.length →
        (chunkSizes1 seq1 seq2 chunkSize).getLast?
          = some (seq1.length % chunkSize))
    ∧ (seq1.length = 1 → chunkSizes1 seq1 seq2 chunkSize = [1]) := by
  have hs1 := render_sizes1 seq1 seq2 chunkSize
  have hs2 := render_sizes2 seq1 seq2 chunkSize hlen
  have hn0 : seq1.length ≠ 0 := fun h0 => hne (List.length_eq_zero.mp h0)
  refine ⟨?_, ?_, ?_, ?_, ?_, ?_, ?_⟩
  · intro h0
    have hnil := chunkLens_ne_nil seq1.length chunkSize hC hn0
    rw [← hs1] at hnil
    exact hnil (by simp [chunkSizes1, h0])
  · rw [hs1]
    exact chunkLens_sum _ _ hC
  · rw [hs2, hs1, hlen]
    rw [← hlen]
    exact chunkLens_sum _ _ hC
  · rw [hs1]
    exact chunkLens_dropLast _ _ hC
  · rw [hs1]
    exact chunkLens_all_dvd _ _ hC
  · rw [hs1]
    exact chunkLens_getLast _ _ hC
  · intro h1
    rw [hs1, h1]
    exact chunkLens_one _ hC

/-- Witness for C3 at seq1 = "ARN", seq2 = "ARD", chunk size 2. -/
theorem render_chunk_lengths_witness :
    0 < 2 ∧ (['A','R','N'] : List Char) ≠ []
    ∧ (['A','R','N'] : List Char).length = (['A','R','D'] : List Char).length
    ∧ (renderAlignment ['A','R','N'] ['A','R','D'] 2 ≠ []
      ∧ (chunkSizes1 ['A','R','N'] ['A','R','D'] 2).sum
          = (['A','R','N'] : List Char).length
      ∧ (chunkSizes2 ['A','R','N'] ['A','R','D'] 2).sum
          = (['A','R','D'] : List Char).length
      ∧ (∀ l ∈ (chunkSizes1 ['A','R','N'] ['A','R','D'] 2).dropLast, l = 2)
      ∧ (2 ∣ (['A','R','N'] : List Char).length →
          ∀ l ∈ chunkSizes1 ['A','R','N'] ['A','R','D'] 2, l = 2)
      ∧ (¬ 2 ∣ (['A','R','N'] : List Char).length →
          (chunkSizes1 ['A','R','N'] ['A','R','D'] 2).getLast?
            = some ((['A','R','N'] : List Char).length % 2))
      ∧ ((['A','R','N'] : List Char).length = 1 →
          chunkSizes1 ['A','R','N'] ['A','R','D'] 2 = [1])) :=
  ⟨by decide, by decide, by decide,
    render_chunk_lengths ['A','R','N'] ['A','R','D'] 2
      (by decide) (by decide) (by decide)⟩

/-- C4 counterexample: the color table has 20 entries, not 21 — the gap
character is an alphabet symbol, yet the table lookup for it fails, and the
white fallback is reached for the alphabet-valid input consisting of a
single gap character. -/
theorem color_table_gap_missing :
    aminoAcidColors.length = 20 ∧ ('-' ∈ alphabet)
    ∧ aminoAcidColors.lookup '-' = none
    ∧ isValidSequence ['-'] = true ∧ colorOf '-' = "#FFF" :=
  ⟨rfl, by decide, rfl, by decide, rfl⟩

/-- C4 amended: the fixed symbol → color table contains exactly 20 entries,
one per amino-acid code; of the 21 alphabet symbols exactly the gap
character lacks a table entry, so the lookup succeeds for the 20 amino-acid
symbols and the defensive white fallback is reached precisely for the gap
on alphabet-valid input. -/
theorem color_table_twenty_entries :
    aminoAcidColors.length = 20 ∧ alphabet.length = 21
    ∧ alphabet.filter (fun c => (aminoAcidColors.lookup c).isNone) = ['-']
    ∧ colorOf '-' = "#FFF" :=
  ⟨rfl, rfl, by decide, rfl⟩

/-- C5: for every pair of equal-length strings and any two positive chunk
sizes, rendering assigns the same symbol-color pair to every position of
both rows after concatenating the chunks in order; the chunk size only
regroups positions. -/
theorem render_chunkSize_independent (seq1 seq2 : List Char)
    (c1 c2 : Nat) (hc1 : 0 < c1) (hc2 : 0 < c2)
    (hlen : seq1.length = seq2.length) :
    row1Flat seq1 seq2 c1 = row1Flat seq1 seq2 c2
    ∧ row2Flat seq1 seq2 c1 = row2Flat seq1 seq2 c2 := by
  constructor
  · rw [render_row1_flatten _ _ _ hc1, render_row1_flatten _ _ _ hc2]
  · rw [render_row2_flatten _ _ _ hc1 hlen,
      render_row2_flatten _ _ _ hc2 hlen]

/-- Witness for C5 at seq1 = "ARN", seq2 = "ARD", chunk sizes 2 and 3. -/
theorem render_chunkSize_independent_witness :
    0 < 2 ∧ 0 < 3
    ∧ (['A','R','N'] : List Char).length = (['A','R','D'] : List Char).length
    ∧ (row1Flat ['A','R','N'] ['A','R','D'] 2
        = row1Flat ['A','R','N'] ['A','R','D'] 3
      ∧ row2Flat ['A','R','N'] ['A','R','D'] 2
        = row2Flat ['A','R','N'] ['A','R','D'] 3) :=
  ⟨by decide, by decide, by decide,
    render_chunkSize_independent ['A','R','N'] ['A','R','D'] 2 3
      (by decide) (by decide) (by decide)⟩

/-- C6: whenever the live sanitizer's output is non-empty, it passes the
validator's alphabet check, so validation of sanitizer outputs can never
fail with the bad-alphabet error. -/
theorem sanitize_output_valid (value : List Char)
    (h : sanitize value ≠ []) :
    isValidSequence (sanitize value) = true :=
  (isValidSequence_iff _).mpr ⟨h, sanitize_mem_alphabet value⟩

/-- Witness for C6 at the raw input "a?r". -/
theorem sanitize_output_valid_witness :
    sanitize ['a','?','r'] ≠ []
    ∧ isValidSequence (sanitize ['a','?','r']) = true :=
  ⟨by decide, sanitize_output_valid ['a','?','r'] (by decide)⟩

/-- C7: the live sanitizer produces exactly the string obtained by
upper-casing every character and then deleting every character not in the
21-symbol alphabet; consequently every character of the accepted value is
an alphabet symbol. -/
theorem sanitize_matches_spec (value : List Char) :
    sanitize value = sanitizeSpec value
    ∧ ∀ c ∈ sanitize value, c ∈ alphabet :=
  ⟨sanitize_eq_spec_aux value, sanitize_mem_alphabet value⟩

/-- C8: an edit event on either input field clears the error message, hides
the diff, stores the sanitized new text in the edited field and leaves the
other field unchanged. -/
theorem edit_clears_error_and_diff (st : UIState) (text : List Char) :
    step st (.change1 text) =
      { seq1 := sanitize text, seq2 := st.seq2, error := "",
        showAlignment := false }
    ∧ step st (.change2 text) =
      { seq1 := st.seq1, seq2 := sanitize text, error := "",
        showAlignment := false } :=
  ⟨rfl, rfl⟩

/-- C9: under the equal-length precondition every reference lookup into
sequence 1's slice made while rendering sequence 2's slice is in bounds
(the same index holds a character of row 1), and the renderer is total with
the number of chunks determined by sequence 1 alone, whatever sequence 2
is. -/
theorem render_ref_lookup_inbounds (seq1 seq2 : List Char)
    (chunkSize : Nat) (_hC : 0 < chunkSize)
    (hlen : seq1.length = seq2.length) :
    (∀ ch ∈ renderAlignment seq1 seq2 chunkSize,
      ∀ idx : Nat, idx < ch.row2.length →
        (ch.row1.map Cell.sym)[idx]? ≠ none)
    ∧ ∀ t t' : List Char,
        (renderAlignment seq1 t chunkSize).length =
          (renderAlignment seq1 t' chunkSize).length := by
  constructor
  · intro ch hch idx hidx
    have hmaps := render_sizes2 seq1 seq2 chunkSize hlen
    unfold chunkSizes1 chunkSizes2 at hmaps
    have hpt := List.map_eq_map_iff.mp hmaps ch hch
    intro hnone
    rw [List.getElem?_eq_none_iff] at hnone
    simp only [List.length_map] at hnone
    omega
  · intro t t'
    rw [renderAlignment_length, renderAlignment_length]

/-- Witness for C9 at seq1 = "ARN", seq2 = "ARD", chunk size 2. -/
theorem render_ref_lookup_inbounds_witness :
    0 < 2
    ∧ (['A','R','N'] : List Char).length = (['A','R','D'] : List Char).length
    ∧ ((∀ ch ∈ renderAlignment ['A','R','N'] ['A','R','D'] 2,
        ∀ idx : Nat, idx < ch.row2.length →
          (ch.row1.map Cell.sym)[idx]? ≠ none)
      ∧ ∀ t t' : List Char,
          (renderAlignment ['A','R','N'] t 2).length =
            (renderAlignment ['A','R','N'] t' 2).length) :=
  ⟨by decide, by decide,
    render_ref_lookup_inbounds ['A','R','N'] ['A','R','D'] 2
      (by decide) (by decide)⟩

/-- C10: starting from the initial state, after any sequence of handler
events the error message and the rendered diff are never displayed
simultaneously — the error is empty or the diff is hidden. -/
theorem error_and_diff_never_both (events : List Event) :
    (run events).error = "" ∨ (run events).showAlignment = false :=
  foldl_inv events initState (Or.inl rfl)

end AlignmentTool
